import Mathlib

/-!
Shallow embedding of `compile_kaitai_parsers.py`: the incremental-build
manifest engine for the Kaitai Struct format library.  File paths, the
version-history oracle (git), the YAML parser and the external compiler are
modelled as data supplied by a `World`; every function of the script that
manipulates that data is translated directly.
-/

/-- Outcome of `yaml.safe_load` on one `.ksy` file, as consumed by
`find_files_with_excluded_licenses` (lines 41-59 of the script):
`err` covers a `yaml.YAMLError` or any other exception (unreadable file,
`meta` not a mapping, ...); `nonMapping` covers a falsy or non-dict
document; `mapping lic` is a parsed dict whose
`data.get("meta", \x7b\x7d).get("license")` lookup yields `lic`
(`none` for a missing or `None` license value). -/
inductive ParseResult where
  | err : ParseResult
  | nonMapping : ParseResult
  | mapping : Option String → ParseResult
deriving DecidableEq, Repr

/-- Python's case-sensitive substring test `needle in hay` on strings. -/
def strContains (hay needle : String) : Bool :=
  decide (needle.toList <:+: hay.toList)

/-- The copyleft license fragments excluded from compilation (line 14). -/
def EXCLUDE_LICENSES : List String :=
  ["AGPL", "EUPL", "GPL", "LGPL", "OSL", "ODbL", "Ms-RL", "GFDL"]

/-- Lines 45-54: a scanned file is flagged exactly when it parsed to a dict
with a truthy license value containing some fragment of the exclusion list
(the Python `for`/`break` is `List.any`; an empty string license is falsy,
so it is skipped by `if not license_val`). -/
def fileExcluded (license_list : List String) : ParseResult → Bool
  | ParseResult.mapping (some s) =>
      !s.isEmpty && license_list.any (fun frag => strContains s frag)
  | _ => false

/-- Timestamp data the `mtime` function (lines 81-94) reads about one file:
whether `git diff --exit-code` reports uncommitted changes, the filesystem
`st_mtime`, and the date of the last commit touching the file.
Timestamps are integers (epoch seconds). -/
structure FileMeta where
  dirty : Bool
  fsMtime : Int
  lastCommit : Int
deriving DecidableEq, Repr

/-- Lines 81-94: the effective modification time of a file — its filesystem
mtime when it has uncommitted changes, otherwise its last commit date. -/
def mtime (m : FileMeta) : Int :=
  if m.dirty then m.fsMtime else m.lastCommit

/-- One non-blank stdout line of the external compiler after
`line.split("\t")[:2]` (line 76): a line with no tab yields a 1-tuple,
a line with a tab yields the first two fields.  The artifact path is kept
as a list of path components so that `Path.relative_to` is meaningful. -/
inductive RawRecord where
  | single : String → RawRecord
  | pair : String → List String → RawRecord
deriving DecidableEq, Repr

/-- One `.ksy` file of the format library as the script observes it:
its path relative to the library root (the manifest key, line 173), the
parse outcome of the license scan, its timestamp data, and the outcome of
`compile_ksy` on it (`none` when the subprocess raises, e.g. a non-zero
compiler exit; `some records` when stdout parsed into records). -/
structure KsyFile where
  path : String
  parse : ParseResult
  meta : FileMeta
  compileOut : Option (List RawRecord)
deriving DecidableEq, Repr

/-- Lines 24-61: the license filter returns, in scan order, the paths of
the files flagged by `fileExcluded`. -/
def find_files_with_excluded_licenses (files : List KsyFile)
    (license_list : List String) : List String :=
  (files.filter (fun f => fileExcluded license_list f.parse)).map KsyFile.path

/-- `Path.relative_to`: strips `base` from the front of `p`, failing with a
`ValueError` (modelled as `none`) when `p` is not located under `base`. -/
def relative_to (p base : List String) : Option (List String) :=
  if base.isPrefixOf p then some (p.drop base.length) else none

/-- One dependency record of a manifest entry (lines 181-187). -/
structure DepEntry where
  class_name : String
  python_path : List String
deriving DecidableEq, Repr

/-- One manifest entry (lines 178-188): primary class name, primary
artifact path relative to the parsers directory, dependency records. -/
structure ManifestEntry where
  class_name : String
  python_path : List String
  dependencies : List DepEntry
deriving DecidableEq, Repr

/-- Lines 181-187: build the dependency list; unpacking a 1-tuple record or
a `relative_to` failure raises and aborts the whole entry. -/
def depEntries (outDir : List String) : List RawRecord → Option (List DepEntry)
  | [] => some []
  | RawRecord.single _ :: _ => none
  | RawRecord.pair cn pp :: rest =>
      match relative_to pp outDir, depEntries outDir rest with
      | some rel, some ds => some (DepEntry.mk cn rel :: ds)
      | _, _ => none

/-- Lines 177-188: build a manifest entry from the compiler records.
Failure cases (each one a raised exception caught at line 190): empty
output, a primary record without a second field, a primary artifact path
outside the output directory, or any failing dependency record. -/
def mkEntry (outDir : List String) : List RawRecord → Option ManifestEntry
  | [] => none
  | RawRecord.single _ :: _ => none
  | RawRecord.pair cn pp :: deps =>
      match relative_to pp outDir, depEntries outDir deps with
      | some rel, some ds => some (ManifestEntry.mk cn rel ds)
      | _, _ => none

/-- The end-to-end result of one compilation job: `none` when the job is an
isolated failure (compiler raised, or `future.result()` produced records
from which no entry could be built), `some entry` on success. -/
def jobResult (outDir : List String) (f : KsyFile) : Option ManifestEntry :=
  f.compileOut.bind (mkEntry outDir)

/-- An uncaught Python exception terminating the run: the `TypeError` of
line 121 when `newest_definition` is still `None`, or the `ValueError` of
line 175 on a duplicate manifest key. -/
inductive RunError where
  | typeErrorNoneCompare : RunError
  | duplicateKey : String → RunError
deriving DecidableEq, Repr

/-- How the process ends: `completed b` is a normal return from `rebuild`
(`b` records whether the rebuild branch ran and wrote a manifest),
`compilerMissingExit` is the `sys.exit(1)` of line 130, and `uncaught e`
is an exception traceback (interpreter exit status 1). -/
inductive Outcome where
  | completed : Bool → Outcome
  | compilerMissingExit : Outcome
  | uncaught : RunError → Outcome
deriving DecidableEq, Repr

/-- The process exit status for each outcome. -/
def exitCode : Outcome → Nat
  | Outcome.completed _ => 0
  | Outcome.compilerMissingExit => 1
  | Outcome.uncaught _ => 1

/-- The manifest file on disk when the run ends: `absent` (deleted or never
present), `prior` (the pre-run file, byte-for-byte untouched), or
`written m` (the mapping serialized by this run at lines 193-194). -/
inductive DiskManifest where
  | absent : DiskManifest
  | prior : DiskManifest
  | written : List (String × ManifestEntry) → DiskManifest
deriving DecidableEq, Repr

/-- Final state of one run: process outcome and manifest file state. -/
structure RunResult where
  outcome : Outcome
  finalManifest : DiskManifest
deriving DecidableEq, Repr

/-- The environment one run of `rebuild` observes: the `.ksy` files in glob
order, whether the manifest file exists, the manifest file's own timestamp
data (as read by `mtime(MANIFEST_PATH)` at line 121), whether
`kaitai-struct-compiler` is installed (line 126), and the parsers output
directory `KAITAI_PARSERS_DIR` as path components. -/
structure World where
  files : List KsyFile
  manifestExists : Bool
  manifestMeta : FileMeta
  compilerAvailable : Bool
  outDir : List String
deriving DecidableEq, Repr

/-- Lines 100-104: the set of excluded paths for this run. -/
def excludedPaths (w : World) : List String :=
  find_files_with_excluded_licenses w.files EXCLUDE_LICENSES

/-- Line 134: the non-excluded files submitted to the worker pool. -/
def filesToCompile (w : World) : List KsyFile :=
  w.files.filter (fun f => !(excludedPaths w).contains f.path)

/-- One step of the loop at lines 114-120: skip excluded files, otherwise
keep the running maximum of the effective modification times. -/
def stepMax (excl : List String) (acc : Option Int) (f : KsyFile) : Option Int :=
  if excl.contains f.path then acc
  else
    match acc with
    | none => some (mtime f.meta)
    | some n => if n < mtime f.meta then some (mtime f.meta) else some n

/-- Lines 113-120: the `newest_definition` accumulator after the loop
(`none` when no non-excluded file was seen). -/
def newestDef (files : List KsyFile) (excl : List String) : Option Int :=
  files.foldl (stepMax excl) none

/-- Lines 170-191: process completed jobs in completion order `l`, folding
entries into the accumulating manifest `m`.  The duplicate-key check of
lines 174-175 runs before `future.result()` is inspected, so it fires for
failing jobs too; a failing job is otherwise skipped (lines 190-191). -/
def processJobs (outDir : List String) :
    List KsyFile → List (String × ManifestEntry) →
      Except RunError (List (String × ManifestEntry))
  | [], m => Except.ok m
  | f :: rest, m =>
      if (List.lookup f.path m).isSome then
        Except.error (RunError.duplicateKey f.path)
      else
        match jobResult outDir f with
        | some e => processJobs outDir rest (m ++ [(f.path, e)])
        | none => processJobs outDir rest m

/-- Lines 126-194: the rebuild branch.  `disk` is the manifest file state
when the branch is entered.  If the external compiler is unavailable the
process exits 1 leaving `disk` untouched; otherwise the jobs are processed
and either a duplicate key aborts the run (manifest not written) or the
accumulated mapping is serialized to the manifest file. -/
def doRebuild (w : World) (order : List KsyFile) (disk : DiskManifest) : RunResult :=
  if w.compilerAvailable then
    match processJobs w.outDir order [] with
    | Except.error e => RunResult.mk (Outcome.uncaught e) disk
    | Except.ok m => RunResult.mk (Outcome.completed true) (DiskManifest.written m)
  else RunResult.mk Outcome.compilerMissingExit disk

/-- Lines 106-194: one run of `rebuild(force)` whose jobs complete in the
order `order`.  With `force` set or no manifest present, the manifest file
is deleted (lines 107-110) before the rebuild; otherwise the staleness
comparison of lines 113-121 decides, raising an uncaught `TypeError` when
no non-excluded definition exists (`None > datetime`). -/
def runRebuildWith (w : World) (force : Bool) (order : List KsyFile) : RunResult :=
  if force || !w.manifestExists then doRebuild w order DiskManifest.absent
  else
    match newestDef w.files (excludedPaths w) with
    | none => RunResult.mk (Outcome.uncaught RunError.typeErrorNoneCompare)
        DiskManifest.prior
    | some n =>
        if mtime w.manifestMeta < n then doRebuild w order DiskManifest.prior
        else RunResult.mk (Outcome.completed false) DiskManifest.prior

/-- The staleness decision in isolation (lines 106-121): `ok true` when a
rebuild is triggered, `ok false` when the manifest is fresh, `error` when
the comparison raises the empty-set `TypeError`. -/
def stalenessDecision (w : World) (force : Bool) : Except RunError Bool :=
  if force || !w.manifestExists then Except.ok true
  else
    match newestDef w.files (excludedPaths w) with
    | none => Except.error RunError.typeErrorNoneCompare
    | some n => Except.ok (decide (mtime w.manifestMeta < n))

/-- Manifest file state right after lines 106-110: deleted under `force` or
when it was missing, otherwise untouched. -/
def diskAfterPrep (w : World) (force : Bool) : DiskManifest :=
  if force || !w.manifestExists then DiskManifest.absent else DiskManifest.prior

/-- The entries a job list contributes on a run without duplicate keys:
one `(path, entry)` pair per succeeding job, in completion order. -/
def successEntries (outDir : List String) (l : List KsyFile) :
    List (String × ManifestEntry) :=
  l.filterMap (fun f => (jobResult outDir f).map (fun e => (f.path, e)))

/-- Looking a key up in an appended association list when it is absent from
the first part. -/
lemma lookup_append_of_none {β : Type} {a : String} {l₁ : List (String × β)}
    (l₂ : List (String × β)) (h : List.lookup a l₁ = none) :
    List.lookup a (l₁ ++ l₂) = List.lookup a l₂ := by
  induction l₁ with
  | nil => simp
  | cons kv rest ih =>
      rw [List.cons_append, List.lookup_cons]
      rw [List.lookup_cons] at h
      cases hkv : (a == kv.1) with
      | true => rw [hkv] at h; simp at h
      | false => rw [hkv] at h; simp only; exact ih h

/-- Unfolding `successEntries` over a succeeding head job. -/
lemma successEntries_cons_some {outDir : List String} {f : KsyFile}
    {e : ManifestEntry} (l : List KsyFile) (h : jobResult outDir f = some e) :
    successEntries outDir (f :: l) = (f.path, e) :: successEntries outDir l := by
  simp [successEntries, List.filterMap_cons, h]

/-- Unfolding `successEntries` over a failing head job. -/
lemma successEntries_cons_none {outDir : List String} {f : KsyFile}
    (l : List KsyFile) (h : jobResult outDir f = none) :
    successEntries outDir (f :: l) = successEntries outDir l := by
  simp [successEntries, List.filterMap_cons, h]

/-- Unfolding `processJobs` over a fresh succeeding head job. -/
lemma processJobs_cons_some {outDir : List String} {f : KsyFile}
    {e : ManifestEntry} {m : List (String × ManifestEntry)} (rest : List KsyFile)
    (hnew : List.lookup f.path m = none) (h : jobResult outDir f = some e) :
    processJobs outDir (f :: rest) m =
      processJobs outDir rest (m ++ [(f.path, e)]) := by
  simp [processJobs, hnew, h]

/-- Unfolding `processJobs` over a fresh failing head job. -/
lemma processJobs_cons_none {outDir : List String} {f : KsyFile}
    {m : List (String × ManifestEntry)} (rest : List KsyFile)
    (hnew : List.lookup f.path m = none) (h : jobResult outDir f = none) :
    processJobs outDir (f :: rest) m = processJobs outDir rest m := by
  simp [processJobs, hnew, h]

/-- Unfolding `processJobs` over a duplicate head job: the fatal
`ValueError` of line 175. -/
lemma processJobs_cons_dup {outDir : List String} {f : KsyFile}
    {m : List (String × ManifestEntry)} (rest : List KsyFile)
    (hdup : (List.lookup f.path m).isSome = true) :
    processJobs outDir (f :: rest) m =
      Except.error (RunError.duplicateKey f.path) := by
  simp [processJobs, hdup]

/-- On a job list with pairwise-distinct paths none of which is already a
key of the accumulator, `processJobs` never hits the duplicate-key error
and appends exactly the entries of the succeeding jobs. -/
lemma processJobs_ok (outDir : List String) (l : List KsyFile) :
    ∀ acc : List (String × ManifestEntry),
      (l.map KsyFile.path).Nodup →
      (∀ f ∈ l, List.lookup f.path acc = none) →
      processJobs outDir l acc = Except.ok (acc ++ successEntries outDir l) := by
  induction l with
  | nil => intro acc _ _; simp [processJobs, successEntries]
  | cons f rest ih =>
      intro acc hnd hacc
      have hf : List.lookup f.path acc = none := hacc f (List.mem_cons_self f rest)
      rw [List.map_cons, List.nodup_cons] at hnd
      cases hjr : jobResult outDir f with
      | some e =>
          have hacc' : ∀ g ∈ rest, List.lookup g.path (acc ++ [(f.path, e)]) = none := by
            intro g hg
            rw [lookup_append_of_none _ (hacc g (List.mem_cons_of_mem f hg))]
            have hne : (g.path == f.path) = false := by
              apply beq_false_of_ne
              intro hEq
              exact hnd.1 (hEq ▸ List.mem_map_of_mem KsyFile.path hg)
            simp [List.lookup_cons, hne]
          rw [processJobs_cons_some rest hf hjr, ih (acc ++ [(f.path, e)]) hnd.2 hacc',
            successEntries_cons_some rest hjr]
          simp
      | none =>
          have hacc' : ∀ g ∈ rest, List.lookup g.path acc = none := fun g hg =>
            hacc g (List.mem_cons_of_mem f hg)
          rw [processJobs_cons_none rest hf hjr, ih acc hnd.2 hacc',
            successEntries_cons_none rest hjr]

/-- When every job carrying the key `p` fails, `p` is absent from the
success entries. -/
lemma lookup_successEntries_none (outDir : List String) (p : String)
    (l : List KsyFile) (h : ∀ g ∈ l, g.path = p → jobResult outDir g = none) :
    List.lookup p (successEntries outDir l) = none := by
  induction l with
  | nil => simp [successEntries]
  | cons f rest ih =>
      have ih' := ih (fun g hg => h g (List.mem_cons_of_mem f hg))
      cases hjr : jobResult outDir f with
      | some e =>
          have hne : (p == f.path) = false := by
            apply beq_false_of_ne
            intro hEq
            rw [h f (List.mem_cons_self f rest) hEq.symm] at hjr
            exact Option.noConfusion hjr
          rw [successEntries_cons_some rest hjr, List.lookup_cons, hne]
          exact ih'
      | none => rw [successEntries_cons_none rest hjr]; exact ih'

/-- A succeeding job's key is present in the success entries (paths are
assumed pairwise distinct). -/
lemma lookup_successEntries_isSome (outDir : List String)
    (l : List KsyFile) (g : KsyFile) (e : ManifestEntry)
    (hnd : (l.map KsyFile.path).Nodup)
    (hg : g ∈ l) (he : jobResult outDir g = some e) :
    (List.lookup g.path (successEntries outDir l)).isSome = true := by
  induction l with
  | nil => exact absurd hg (List.not_mem_nil g)
  | cons f rest ih =>
      rw [List.map_cons, List.nodup_cons] at hnd
      rcases List.mem_cons.mp hg with hgf | hgr
      · subst hgf
        rw [successEntries_cons_some rest he, List.lookup_cons]
        simp
      · have hne : (g.path == f.path) = false := by
          apply beq_false_of_ne
          intro hEq
          exact hnd.1 (hEq ▸ List.mem_map_of_mem KsyFile.path hgr)
        cases hjr : jobResult outDir f with
        | some e' =>
            rw [successEntries_cons_some rest hjr, List.lookup_cons, hne]
            exact ih hnd.2 hgr
        | none =>
            rw [successEntries_cons_none rest hjr]
            exact ih hnd.2 hgr

/-- The number of success entries is the number of succeeding jobs. -/
lemma successEntries_length (outDir : List String) (l : List KsyFile) :
    (successEntries outDir l).length =
      l.countP (fun f => (jobResult outDir f).isSome) := by
  induction l with
  | nil => simp [successEntries]
  | cons f rest ih =>
      cases hjr : jobResult outDir f with
      | some e =>
          rw [successEntries_cons_some rest hjr, List.length_cons, ih,
            List.countP_cons_of_pos _ _ (by simp [hjr])]
      | none =>
          rw [successEntries_cons_none rest hjr, ih,
            List.countP_cons_of_neg _ _ (by simp [hjr])]

/-- Counting a predicate that fails on exactly one element of a
duplicate-free list. -/
lemma countP_of_single_failure {α : Type} (p : α → Bool) (l : List α) (x : α)
    (hnd : l.Nodup) (hx : x ∈ l) (hfail : p x = false)
    (hothers : ∀ y ∈ l, y ≠ x → p y = true) :
    l.countP p = l.length - 1 := by
  induction l with
  | nil => exact absurd hx (List.not_mem_nil x)
  | cons a rest ih =>
      have hnd₀ := List.nodup_cons.mp hnd
      rcases List.mem_cons.mp hx with hax | hxr
      · subst hax
        rw [List.countP_cons_of_neg _ _ (by simp [hfail])]
        have hall : ∀ y ∈ rest, p y = true := by
          intro y hy
          exact hothers y (List.mem_cons_of_mem x hy)
            (fun hEq => hnd₀.1 (hEq ▸ hy))
        rw [List.countP_eq_length.mpr hall]
        simp
      · have ha : p a = true := hothers a (List.mem_cons_self a rest)
          (fun hEq => hnd₀.1 (hEq ▸ hxr))
        rw [List.countP_cons_of_pos _ _ (by simp [ha])]
        have hlen : 0 < rest.length := List.length_pos.mpr
          (List.ne_nil_of_mem hxr)
        rw [ih hnd₀.2 hxr
          (fun y hy hne => hothers y (List.mem_cons_of_mem a hy) hne)]
        simp only [List.length_cons]
        omega

/-- When the staleness decision triggers a rebuild, the run is the rebuild
branch entered with the manifest state left by lines 106-110. -/
lemma runRebuildWith_of_trigger (w : World) (force : Bool) (order : List KsyFile)
    (h : stalenessDecision w force = Except.ok true) :
    runRebuildWith w force order = doRebuild w order (diskAfterPrep w force) := by
  cases hb : (force || !w.manifestExists) with
  | true => simp [runRebuildWith, diskAfterPrep, hb]
  | false =>
      rw [stalenessDecision, hb] at h
      simp only [Bool.false_eq_true, if_false] at h
      cases hnd : newestDef w.files (excludedPaths w) with
      | none => rw [hnd] at h; exact absurd h (by simp)
      | some n =>
          rw [hnd] at h
          simp only [Except.ok.injEq, decide_eq_true_eq] at h
          simp [runRebuildWith, diskAfterPrep, hb, hnd, h]

/-- When the staleness decision finds the manifest fresh, the run completes
without touching anything. -/
lemma runRebuildWith_of_fresh (w : World) (force : Bool) (order : List KsyFile)
    (h : stalenessDecision w force = Except.ok false) :
    runRebuildWith w force order =
      RunResult.mk (Outcome.completed false) DiskManifest.prior := by
  cases hb : (force || !w.manifestExists) with
  | true => rw [stalenessDecision, hb] at h; simp at h
  | false =>
      rw [stalenessDecision, hb] at h
      simp only [Bool.false_eq_true, if_false] at h
      cases hnd : newestDef w.files (excludedPaths w) with
      | none => rw [hnd] at h; exact absurd h (by simp)
      | some n =>
          rw [hnd] at h
          simp only [Except.ok.injEq, decide_eq_false_iff_not] at h
          simp [runRebuildWith, hb, hnd, h]

/-- When the staleness decision raises, the run dies with that exception
and the prior manifest file is untouched. -/
lemma runRebuildWith_of_error (w : World) (force : Bool) (order : List KsyFile)
    (e : RunError) (h : stalenessDecision w force = Except.error e) :
    e = RunError.typeErrorNoneCompare ∧
      runRebuildWith w force order =
        RunResult.mk (Outcome.uncaught RunError.typeErrorNoneCompare)
          DiskManifest.prior := by
  cases hb : (force || !w.manifestExists) with
  | true => rw [stalenessDecision, hb] at h; simp at h
  | false =>
      rw [stalenessDecision, hb] at h
      simp only [Bool.false_eq_true, if_false] at h
      cases hnd : newestDef w.files (excludedPaths w) with
      | none =>
          rw [hnd] at h
          simp only [Except.error.injEq] at h
          exact ⟨h.symm, by simp [runRebuildWith, hb, hnd]⟩
      | some n => rw [hnd] at h; exact absurd h (by simp)

/-- A `stepMax` step starting from a defined accumulator stays defined and
never decreases it. -/
lemma stepMax_some (excl : List String) (b : Int) (f : KsyFile) :
    ∃ c, stepMax excl (some b) f = some c ∧ b ≤ c := by
  unfold stepMax
  by_cases hm : f.path ∈ excl
  · exact ⟨b, by simp [hm], le_refl b⟩
  · by_cases hlt : b < mtime f.meta
    · exact ⟨mtime f.meta, by simp [hm, hlt], le_of_lt hlt⟩
    · exact ⟨b, by simp [hm, hlt], le_refl b⟩

/-- A `stepMax` step on a non-excluded file yields a defined accumulator at
least the file's effective time. -/
lemma stepMax_lower (excl : List String) (acc : Option Int) (f : KsyFile)
    (hf : excl.contains f.path = false) :
    ∃ c, stepMax excl acc f = some c ∧ mtime f.meta ≤ c := by
  have hm : f.path ∉ excl := by simpa using hf
  unfold stepMax
  cases acc with
  | none => exact ⟨mtime f.meta, by simp [hm], le_refl _⟩
  | some a =>
      by_cases hlt : a < mtime f.meta
      · exact ⟨mtime f.meta, by simp [hm, hlt], le_refl _⟩
      · exact ⟨a, by simp [hm, hlt], le_of_not_lt hlt⟩

/-- The running maximum never decreases along the loop. -/
lemma foldl_stepMax_mono (excl : List String) (l : List KsyFile) :
    ∀ b m : Int, List.foldl (stepMax excl) (some b) l = some m → b ≤ m := by
  induction l with
  | nil => intro b m h; simp only [List.foldl_nil, Option.some.injEq] at h; omega
  | cons f rest ih =>
      intro b m h
      obtain ⟨c, hc, hbc⟩ := stepMax_some excl b f
      rw [List.foldl_cons, hc] at h
      exact le_trans hbc (ih c m h)

/-- A defined accumulator survives the rest of the loop. -/
lemma foldl_stepMax_total (excl : List String) (l : List KsyFile) (b : Int) :
    ∃ m, List.foldl (stepMax excl) (some b) l = some m := by
  induction l generalizing b with
  | nil => exact ⟨b, rfl⟩
  | cons f rest ih =>
      obtain ⟨c, hc, _⟩ := stepMax_some excl b f
      obtain ⟨m, hm⟩ := ih c
      exact ⟨m, by rw [List.foldl_cons, hc]; exact hm⟩

/-- With at least one non-excluded file in the list, the loop ends with a
defined `newest_definition`. -/
lemma foldl_stepMax_some_of_mem (excl : List String) (l : List KsyFile)
    (h : ∃ f ∈ l, excl.contains f.path = false) :
    ∃ m, List.foldl (stepMax excl) none l = some m := by
  induction l with
  | nil => obtain ⟨f, hf, _⟩ := h; exact absurd hf (List.not_mem_nil f)
  | cons f rest ih =>
      by_cases hm : f.path ∈ excl
      · have hstep : stepMax excl none f = none := by simp [stepMax, hm]
        rw [List.foldl_cons, hstep]
        obtain ⟨g, hg, hgc⟩ := h
        rcases List.mem_cons.mp hg with hgf | hgr
        · rw [hgf] at hgc
          exact absurd hm (by simpa using hgc)
        · exact ih ⟨g, hgr, hgc⟩
      · have hstep : stepMax excl none f = some (mtime f.meta) := by
          simp [stepMax, hm]
        rw [List.foldl_cons, hstep]
        exact foldl_stepMax_total excl rest (mtime f.meta)

/-- The loop result bounds every non-excluded file's effective time. -/
lemma foldl_stepMax_ub (excl : List String) (l : List KsyFile) :
    ∀ (acc : Option Int) (m : Int), List.foldl (stepMax excl) acc l = some m →
      ∀ g ∈ l, excl.contains g.path = false → mtime g.meta ≤ m := by
  induction l with
  | nil => intro acc m _ g hg; exact absurd hg (List.not_mem_nil g)
  | cons f rest ih =>
      intro acc m h g hg hgc
      rw [List.foldl_cons] at h
      rcases List.mem_cons.mp hg with hgf | hgr
      · subst hgf
        obtain ⟨c, hc, hlb⟩ := stepMax_lower excl acc g hgc
        rw [hc] at h
        exact le_trans hlb (foldl_stepMax_mono excl rest c m h)
      · exact ih (stepMax excl acc f) m h g hgr hgc

/-- The loop result is attained: it is the initial accumulator or the
effective time of some non-excluded file of the list. -/
lemma foldl_stepMax_mem (excl : List String) (l : List KsyFile) :
    ∀ (acc : Option Int) (m : Int), List.foldl (stepMax excl) acc l = some m →
      acc = some m ∨
        ∃ g ∈ l, excl.contains g.path = false ∧ mtime g.meta = m := by
  induction l with
  | nil => intro acc m h; exact Or.inl h
  | cons f rest ih =>
      intro acc m h
      rw [List.foldl_cons] at h
      rcases ih (stepMax excl acc f) m h with hstep | ⟨g, hg, hgc, hgm⟩
      · by_cases hm : f.path ∈ excl
        · rw [show stepMax excl acc f = acc from by simp [stepMax, hm]] at hstep
          exact Or.inl hstep
        · have hcf : excl.contains f.path = false := by simpa using hm
          cases acc with
          | none =>
              rw [show stepMax excl none f = some (mtime f.meta) from
                by simp [stepMax, hm]] at hstep
              exact Or.inr ⟨f, List.mem_cons_self f rest, hcf,
                Option.some.inj hstep⟩
          | some a =>
              by_cases hlt : a < mtime f.meta
              · rw [show stepMax excl (some a) f = some (mtime f.meta) from
                  by simp [stepMax, hm, hlt]] at hstep
                exact Or.inr ⟨f, List.mem_cons_self f rest, hcf,
                  Option.some.inj hstep⟩
              · rw [show stepMax excl (some a) f = some a from
                  by simp [stepMax, hm, hlt]] at hstep
                exact Or.inl hstep
      · exact Or.inr ⟨g, List.mem_cons_of_mem f hg, hgc, hgm⟩

/-- Full characterization of `newest_definition` on a list holding at least
one non-excluded file: it is defined and is exactly the maximum effective
modification time over the non-excluded files. -/
lemma newestDef_max (files : List KsyFile) (excl : List String) (f0 : KsyFile)
    (hf0 : f0 ∈ files) (h0 : excl.contains f0.path = false) :
    ∃ n, newestDef files excl = some n ∧
      (∀ g ∈ files, excl.contains g.path = false → mtime g.meta ≤ n) ∧
      (∃ g ∈ files, excl.contains g.path = false ∧ mtime g.meta = n) := by
  obtain ⟨n, hn⟩ := foldl_stepMax_some_of_mem excl files ⟨f0, hf0, h0⟩
  refine ⟨n, hn, foldl_stepMax_ub excl files none n hn, ?_⟩
  rcases foldl_stepMax_mem excl files none n hn with hbad | hmem
  · exact absurd hbad (by simp)
  · exact hmem

/-- Replace the timestamp data of every file at path `p`, leaving path,
parse outcome and compiler outcome untouched. -/
def updMeta (p : String) (fm : FileMeta) (g : KsyFile) : KsyFile :=
  if g.path = p then KsyFile.mk g.path g.parse fm g.compileOut else g

/-- `updMeta` preserves the path. -/
lemma updMeta_path (p : String) (fm : FileMeta) (g : KsyFile) :
    (updMeta p fm g).path = g.path := by
  unfold updMeta; split <;> rfl

/-- `updMeta` preserves the license-scan outcome. -/
lemma updMeta_parse (p : String) (fm : FileMeta) (g : KsyFile) :
    (updMeta p fm g).parse = g.parse := by
  unfold updMeta; split <;> rfl

/-- The license scan is blind to timestamp data. -/
lemma find_files_map_updMeta (files : List KsyFile) (p : String)
    (fm : FileMeta) (license_list : List String) :
    find_files_with_excluded_licenses (files.map (updMeta p fm)) license_list =
      find_files_with_excluded_licenses files license_list := by
  unfold find_files_with_excluded_licenses
  induction files with
  | nil => rfl
  | cons f rest ih =>
      rw [List.map_cons, List.filter_cons, List.filter_cons, updMeta_parse]
      cases hp : fileExcluded license_list f.parse <;> simp [updMeta_path, ih]

/-- Changing the timestamp data of an excluded path does not move the
`newest_definition` accumulator at any point of the loop. -/
lemma foldl_stepMax_updMeta (excl : List String) (p : String) (fm : FileMeta)
    (hp : excl.contains p = true) (l : List KsyFile) :
    ∀ acc : Option Int,
      List.foldl (stepMax excl) acc (l.map (updMeta p fm)) =
        List.foldl (stepMax excl) acc l := by
  have hpm : p ∈ excl := by simpa using hp
  induction l with
  | nil => intro acc; rfl
  | cons f rest ih =>
      intro acc
      rw [List.map_cons, List.foldl_cons, List.foldl_cons]
      have hstep : stepMax excl acc (updMeta p fm f) = stepMax excl acc f := by
        unfold updMeta
        by_cases hfp : f.path = p
        · rw [if_pos hfp]
          show stepMax excl acc (KsyFile.mk f.path f.parse fm f.compileOut) = _
          unfold stepMax
          rw [hfp]
          simp [hpm]
        · rw [if_neg hfp]
      rw [hstep]
      exact ih (stepMax excl acc f)

/-- Looking up a key gives the same answer in any two permuted association
lists with duplicate-free keys. -/
lemma lookup_perm_of_nodup_keys {β : Type} (p : String) :
    ∀ {l₁ l₂ : List (String × β)}, l₁.Perm l₂ → (l₁.map Prod.fst).Nodup →
      List.lookup p l₁ = List.lookup p l₂ := by
  intro l₁ l₂ hperm
  induction hperm with
  | nil => intro _; rfl
  | cons x h ih =>
      intro hnd
      rw [List.map_cons, List.nodup_cons] at hnd
      rw [List.lookup_cons, List.lookup_cons, ih hnd.2]
  | swap x y l =>
      intro hnd
      rw [List.map_cons, List.nodup_cons, List.map_cons, List.nodup_cons] at hnd
      have hxy : y.1 ≠ x.1 := by
        intro hEq
        exact hnd.1 (hEq ▸ List.mem_cons_self x.1 (l.map Prod.fst))
      rw [List.lookup_cons, List.lookup_cons, List.lookup_cons, List.lookup_cons]
      cases hpy : (p == y.1) with
      | true =>
          cases hpx : (p == x.1) with
          | true => exact absurd ((eq_of_beq hpy).symm.trans (eq_of_beq hpx)) hxy
          | false => simp [hpy, hpx]
      | false =>
          cases hpx : (p == x.1) with
          | true => simp [hpy, hpx]
          | false => simp [hpy, hpx]
  | trans h₁ h₂ ih₁ ih₂ =>
      intro hnd
      have hnd₂ := ((h₁.map Prod.fst).nodup_iff).mp hnd
      rw [ih₁ hnd, ih₂ hnd₂]

/-- The keys of the success entries are the paths of the succeeding jobs. -/
lemma successEntries_keys (outDir : List String) (l : List KsyFile) :
    (successEntries outDir l).map Prod.fst =
      (l.filter (fun f => (jobResult outDir f).isSome)).map KsyFile.path := by
  induction l with
  | nil => rfl
  | cons f rest ih =>
      cases hjr : jobResult outDir f with
      | some e =>
          rw [successEntries_cons_some rest hjr, List.filter_cons_of_pos
            (by simp [hjr]), List.map_cons, List.map_cons, ih]
      | none =>
          rw [successEntries_cons_none rest hjr, List.filter_cons_of_neg
            (by simp [hjr]), ih]

/-- With pairwise-distinct job paths, the success entries have
pairwise-distinct keys. -/
lemma successEntries_keys_nodup (outDir : List String) (l : List KsyFile)
    (hnd : (l.map KsyFile.path).Nodup) :
    ((successEntries outDir l).map Prod.fst).Nodup := by
  rw [successEntries_keys]
  exact hnd.sublist ((List.filter_sublist l).map KsyFile.path)

/-- C4: a scanned definition file is in the exclusion set iff it parsed to
a mapping whose declared license string contains (case-sensitively) some
fragment of the exclusion list; a file with no declared license, or one
that is malformed or unreadable, is never in the exclusion set.  (The path
is assumed to identify the file uniquely, as a filesystem glob guarantees;
an empty declared license is falsy in Python and contains no fragment, so
both sides of the iff reject it.) -/
theorem license_scan_exclusion_iff (files : List KsyFile) (f : KsyFile)
    (hf : f ∈ files) (hnd : (files.map KsyFile.path).Nodup) :
    (f.path ∈ find_files_with_excluded_licenses files EXCLUDE_LICENSES ↔
      ∃ s, f.parse = ParseResult.mapping (some s) ∧ s.isEmpty = false ∧
        EXCLUDE_LICENSES.any (fun frag => strContains s frag) = true) ∧
    ((f.parse = ParseResult.err ∨ f.parse = ParseResult.nonMapping ∨
        f.parse = ParseResult.mapping none) →
      f.path ∉ find_files_with_excluded_licenses files EXCLUDE_LICENSES) := by
  have hiff : f.path ∈ find_files_with_excluded_licenses files EXCLUDE_LICENSES ↔
      fileExcluded EXCLUDE_LICENSES f.parse = true := by
    unfold find_files_with_excluded_licenses
    constructor
    · intro hmem
      obtain ⟨g, hgmem, hgpath⟩ := List.mem_map.mp hmem
      obtain ⟨hgfiles, hgpred⟩ := List.mem_filter.mp hgmem
      have hgf : g = f := List.inj_on_of_nodup_map hnd hgfiles hf hgpath
      exact hgf ▸ hgpred
    · intro hpred
      exact List.mem_map.mpr ⟨f, List.mem_filter.mpr ⟨hf, hpred⟩, rfl⟩
  constructor
  · rw [hiff]
    constructor
    · intro hex
      cases hp : f.parse with
      | err => rw [hp] at hex; exact absurd hex (by simp [fileExcluded])
      | nonMapping => rw [hp] at hex; exact absurd hex (by simp [fileExcluded])
      | mapping lic =>
          cases lic with
          | none => rw [hp] at hex; exact absurd hex (by simp [fileExcluded])
          | some s =>
              rw [hp] at hex
              unfold fileExcluded at hex
              rw [Bool.and_eq_true, Bool.not_eq_true'] at hex
              exact ⟨s, rfl, hex.1, hex.2⟩
    · rintro ⟨s, hs, hne, hany⟩
      rw [hs]
      unfold fileExcluded
      rw [Bool.and_eq_true, Bool.not_eq_true']
      exact ⟨hne, hany⟩
  · intro hdeg
    rw [hiff]
    rcases hdeg with h | h | h <;> rw [h] <;> simp [fileExcluded]

/-- Sample file for the C4 witness: GPL-licensed definition. -/
def wit4gpl : KsyFile :=
  KsyFile.mk "g.ksy" (ParseResult.mapping (some "GPL-3.0-or-later"))
    (FileMeta.mk false 10 5) none

/-- Sample file for the C4 witness: definition with no declared license. -/
def wit4plain : KsyFile :=
  KsyFile.mk "p.ksy" (ParseResult.mapping none) (FileMeta.mk false 10 5) none

/-- Witness for C4: the theorem applied to a concrete scan puts the
GPL-licensed file in the exclusion set. -/
theorem license_scan_exclusion_iff_witness :
    wit4gpl.path ∈
      find_files_with_excluded_licenses [wit4gpl, wit4plain] EXCLUDE_LICENSES :=
  (license_scan_exclusion_iff [wit4gpl, wit4plain] wit4gpl (by decide)
    (by decide)).1.mpr ⟨"GPL-3.0-or-later", rfl, by decide, by decide⟩

/-- C9: an excluded definition is skipped by both the staleness scan and
the compilation dispatch: no submitted job carries its path, and replacing
its timestamp data by anything (however new) changes neither the
`newest_definition` accumulator nor the staleness decision. -/
theorem excluded_definition_skipped (w : World) (f : KsyFile) (hf : f ∈ w.files)
    (hexcl : (excludedPaths w).contains f.path = true) :
    (∀ g ∈ filesToCompile w, g.path ≠ f.path) ∧
    (∀ fm : FileMeta,
      newestDef (w.files.map (updMeta f.path fm)) (excludedPaths w) =
        newestDef w.files (excludedPaths w)) ∧
    (∀ fm : FileMeta,
      stalenessDecision
        (World.mk (w.files.map (updMeta f.path fm)) w.manifestExists
          w.manifestMeta w.compilerAvailable w.outDir) false =
        stalenessDecision w false) := by
  have hupd : ∀ fm : FileMeta,
      newestDef (w.files.map (updMeta f.path fm)) (excludedPaths w) =
        newestDef w.files (excludedPaths w) := by
    intro fm
    unfold newestDef
    exact foldl_stepMax_updMeta (excludedPaths w) f.path fm hexcl w.files none
  refine ⟨?_, hupd, ?_⟩
  · intro g hg hEq
    unfold filesToCompile at hg
    have hgc := (List.mem_filter.mp hg).2
    rw [hEq] at hgc
    rw [hexcl] at hgc
    exact absurd hgc (by simp)
  · intro fm
    have hex : excludedPaths
        (World.mk (w.files.map (updMeta f.path fm)) w.manifestExists
          w.manifestMeta w.compilerAvailable w.outDir) = excludedPaths w := by
      unfold excludedPaths
      exact find_files_map_updMeta w.files f.path fm EXCLUDE_LICENSES
    unfold stalenessDecision
    rw [hex]
    rw [show (World.mk (w.files.map (updMeta f.path fm)) w.manifestExists
      w.manifestMeta w.compilerAvailable w.outDir).files =
        w.files.map (updMeta f.path fm) from rfl]
    rw [hupd fm]

/-- Excluded sample file for the C9 witness. -/
def wit9gpl : KsyFile :=
  KsyFile.mk "g.ksy" (ParseResult.mapping (some "GPL-3.0-or-later"))
    (FileMeta.mk false 10 5) none

/-- Eligible sample file for the C9 witness. -/
def wit9plain : KsyFile :=
  KsyFile.mk "p.ksy" (ParseResult.mapping none) (FileMeta.mk false 10 5) none

/-- Sample world for the C9 witness. -/
def wit9world : World :=
  World.mk [wit9gpl, wit9plain] true (FileMeta.mk true 40 0) true ["out"]

/-- Very new timestamp data for the C9 witness: the excluded file becomes
the newest file in the tree. -/
def wit9meta : FileMeta := FileMeta.mk true 99999 99999

/-- Witness for C9: even made the newest file in the tree, the excluded
GPL definition does not change the staleness decision. -/
theorem excluded_definition_skipped_witness :
    stalenessDecision
      (World.mk (wit9world.files.map (updMeta wit9gpl.path wit9meta))
        wit9world.manifestExists wit9world.manifestMeta
        wit9world.compilerAvailable wit9world.outDir) false =
      stalenessDecision wit9world false :=
  (excluded_definition_skipped wit9world wit9gpl (by decide) (by decide)).2.2
    wit9meta

/-- C1: with `force` unset and the manifest present, the rebuild decision
is `true` iff the maximum effective modification timestamp over the
non-excluded definitions strictly exceeds the manifest's filesystem
modification time.  The effective timestamp is `mtime`: filesystem mtime
for a file with uncommitted changes, last-commit time otherwise.  The
hypothesis `manifestMeta.dirty = true` records that `git diff` on the
manifest path (which lies outside the format-library repository) always
exits non-zero, so `mtime(MANIFEST_PATH)` is the filesystem mtime.  The
non-excluded set is assumed non-empty (its maximum is then defined; the
empty case is the subject of the empty-set claim). -/
theorem staleness_rebuild_iff_max_effective (w : World)
    (hman : w.manifestExists = true)
    (hdirty : w.manifestMeta.dirty = true)
    (f0 : KsyFile) (hf0 : f0 ∈ w.files)
    (hex0 : (excludedPaths w).contains f0.path = false) :
    ∃ n, newestDef w.files (excludedPaths w) = some n ∧
      (∀ g ∈ w.files, (excludedPaths w).contains g.path = false →
        mtime g.meta ≤ n) ∧
      (∃ g ∈ w.files, (excludedPaths w).contains g.path = false ∧
        mtime g.meta = n) ∧
      (stalenessDecision w false = Except.ok true ↔
        w.manifestMeta.fsMtime < n) := by
  obtain ⟨n, hn, hub, hmem⟩ :=
    newestDef_max w.files (excludedPaths w) f0 hf0 hex0
  refine ⟨n, hn, hub, hmem, ?_⟩
  have hfs : mtime w.manifestMeta = w.manifestMeta.fsMtime := by
    unfold mtime; rw [hdirty]; simp
  unfold stalenessDecision
  rw [hman]
  simp only [Bool.not_true, Bool.or_false, Bool.false_eq_true, if_false]
  rw [hn, hfs]
  constructor
  · intro h
    simp only [Except.ok.injEq, decide_eq_true_eq] at h
    exact h
  · intro h
    simp only [Except.ok.injEq, decide_eq_true_eq]
    exact h

/-- Dirty sample file for the C1 witness: uncommitted changes, filesystem
mtime 100, older commit time 50. -/
def wit1dirty : KsyFile :=
  KsyFile.mk "d.ksy" (ParseResult.mapping none) (FileMeta.mk true 100 50) none

/-- Clean sample file for the C1 witness: committed, filesystem mtime 200
but commit time 30, so its effective timestamp is 30. -/
def wit1clean : KsyFile :=
  KsyFile.mk "c.ksy" (ParseResult.mapping none) (FileMeta.mk false 200 30) none

/-- Sample world for the C1 witness: manifest present with filesystem
mtime 40, older than the dirty file's effective timestamp 100. -/
def wit1world : World :=
  World.mk [wit1dirty, wit1clean] true (FileMeta.mk true 40 0) true ["out"]

/-- Witness for C1: in the sample world the maximum effective timestamp is
100 (the dirty file's filesystem mtime) and 40 < 100, so the decision is
to rebuild. -/
theorem staleness_rebuild_iff_max_effective_witness :
    stalenessDecision wit1world false = Except.ok true := by
  obtain ⟨n, hn, hub, hmem, hiff⟩ :=
    staleness_rebuild_iff_max_effective wit1world rfl rfl wit1dirty
      (by decide) (by decide)
  have h100 : newestDef wit1world.files (excludedPaths wit1world) = some 100 := by
    decide
  rw [hn] at h100
  have hn100 : n = 100 := Option.some.inj h100
  exact hiff.mpr (by rw [hn100]; decide)

/-- Sample file for the empty-eligible-set run: its GPL license excludes
it, so the staleness loop sees no definition at all. -/
def wit5gpl : KsyFile :=
  KsyFile.mk "g.ksy" (ParseResult.mapping (some "GPL-3.0-or-later"))
    (FileMeta.mk false 1000 999) (some [])

/-- Sample world for the empty-eligible-set run: manifest present, force
unset, every definition excluded. -/
def wit5world : World :=
  World.mk [wit5gpl] true (FileMeta.mk true 40 0) true ["out"]

/-- C5 (code evidence): with `force` unset, an existing manifest and an
empty non-excluded definition set, `newest_definition` stays `None` and
line 121 compares `None > datetime`, an uncaught `TypeError`: the process
dies with exit status 1 instead of completing with the decision that no
rebuild is required.  (No rebuild happens, but no orderly completion
either.) -/
theorem empty_eligible_set_type_error :
    runRebuildWith wit5world false [] =
      RunResult.mk (Outcome.uncaught RunError.typeErrorNoneCompare)
        DiskManifest.prior ∧
    exitCode (runRebuildWith wit5world false []).outcome = 1 ∧
    stalenessDecision wit5world false =
      Except.error RunError.typeErrorNoneCompare :=
  ⟨by decide, by decide, rfl⟩

/-- C3: on a triggered rebuild with the compiler available, over eligible
definitions with pairwise-distinct relative paths of which exactly one
job fails, the run writes a manifest with exactly N-1 entries — the
failing definition absent, every succeeding one present — and the process
exits with status 0. -/
theorem single_failure_isolated_manifest (w : World) (force : Bool)
    (order : List KsyFile) (f : KsyFile)
    (hperm : order.Perm (filesToCompile w))
    (hnd : (order.map KsyFile.path).Nodup)
    (hf : f ∈ order)
    (hfail : jobResult w.outDir f = none)
    (hothers : ∀ g ∈ order, g ≠ f → (jobResult w.outDir g).isSome = true)
    (htrig : stalenessDecision w force = Except.ok true)
    (hcomp : w.compilerAvailable = true) :
    ∃ m, runRebuildWith w force order =
        RunResult.mk (Outcome.completed true) (DiskManifest.written m) ∧
      m.length = order.length - 1 ∧
      order.length = (filesToCompile w).length ∧
      List.lookup f.path m = none ∧
      (∀ g ∈ order, g ≠ f → (List.lookup g.path m).isSome = true) ∧
      exitCode (runRebuildWith w force order).outcome = 0 := by
  have hjobs : processJobs w.outDir order [] =
      Except.ok (successEntries w.outDir order) := by
    have h := processJobs_ok w.outDir order [] hnd (fun g _ => rfl)
    simpa using h
  have hrun : runRebuildWith w force order =
      RunResult.mk (Outcome.completed true)
        (DiskManifest.written (successEntries w.outDir order)) := by
    rw [runRebuildWith_of_trigger w force order htrig]
    unfold doRebuild
    simp [hcomp, hjobs]
  refine ⟨successEntries w.outDir order, hrun, ?_, hperm.length_eq, ?_, ?_,
    by rw [hrun]; rfl⟩
  · rw [successEntries_length]
    exact countP_of_single_failure _ order f (hnd.of_map KsyFile.path) hf
      (by rw [hfail]; rfl) hothers
  · apply lookup_successEntries_none
    intro g hg hgp
    by_cases hgf : g = f
    · rw [hgf]; exact hfail
    · exact absurd (List.inj_on_of_nodup_map hnd hg hf hgp) hgf
  · intro g hg hgf
    obtain ⟨e, he⟩ := Option.isSome_iff_exists.mp (hothers g hg hgf)
    exact lookup_successEntries_isSome w.outDir order g e hnd hg he

/-- Succeeding sample job for the C3 witness. -/
def wit3a : KsyFile :=
  KsyFile.mk "a.ksy" (ParseResult.mapping none) (FileMeta.mk true 0 0)
    (some [RawRecord.pair "A" ["out", "a.py"]])

/-- Failing sample job for the C3 witness: the compiler subprocess raises. -/
def wit3b : KsyFile :=
  KsyFile.mk "b.ksy" (ParseResult.mapping none) (FileMeta.mk true 0 0) none

/-- Sample world for the C3 witness: no manifest yet, compiler present. -/
def wit3world : World :=
  World.mk [wit3a, wit3b] false (FileMeta.mk true 0 0) true ["out"]

/-- Witness for C3: of two jobs with exactly one failure, the run writes a
one-entry manifest and exits 0. -/
theorem single_failure_isolated_manifest_witness :
    ∃ m, runRebuildWith wit3world false [wit3a, wit3b] =
        RunResult.mk (Outcome.completed true) (DiskManifest.written m) ∧
      m.length = [wit3a, wit3b].length - 1 ∧
      [wit3a, wit3b].length = (filesToCompile wit3world).length ∧
      List.lookup wit3b.path m = none ∧
      (∀ g ∈ [wit3a, wit3b], g ≠ wit3b →
        (List.lookup g.path m).isSome = true) ∧
      exitCode (runRebuildWith wit3world false [wit3a, wit3b]).outcome = 0 :=
  single_failure_isolated_manifest wit3world false [wit3a, wit3b] wit3b
    (by decide) (by decide) (by decide) (by decide) (by decide) rfl rfl

/-- C10: a job whose compiler invocation returned output from which no
manifest entry can be built (empty output, a record with no tab-separated
second field, or an artifact path outside the output directory) is an
isolated failure: on a run with pairwise-distinct job paths it is simply
omitted from the manifest, which is still written, and the process exits
with status 0. -/
theorem malformed_output_isolated (w : World) (force : Bool)
    (order : List KsyFile) (f : KsyFile) (recs : List RawRecord)
    (hnd : (order.map KsyFile.path).Nodup)
    (hf : f ∈ order)
    (hrec : f.compileOut = some recs)
    (hbad : mkEntry w.outDir recs = none)
    (htrig : stalenessDecision w force = Except.ok true)
    (hcomp : w.compilerAvailable = true) :
    ∃ m, processJobs w.outDir order [] = Except.ok m ∧
      List.lookup f.path m = none ∧
      runRebuildWith w force order =
        RunResult.mk (Outcome.completed true) (DiskManifest.written m) ∧
      exitCode (runRebuildWith w force order).outcome = 0 := by
  have hfail : jobResult w.outDir f = none := by
    unfold jobResult
    rw [hrec]
    simpa using hbad
  have hjobs : processJobs w.outDir order [] =
      Except.ok (successEntries w.outDir order) := by
    have h := processJobs_ok w.outDir order [] hnd (fun g _ => rfl)
    simpa using h
  have hrun : runRebuildWith w force order =
      RunResult.mk (Outcome.completed true)
        (DiskManifest.written (successEntries w.outDir order)) := by
    rw [runRebuildWith_of_trigger w force order htrig]
    unfold doRebuild
    simp [hcomp, hjobs]
  refine ⟨successEntries w.outDir order, hjobs, ?_, hrun, by rw [hrun]; rfl⟩
  apply lookup_successEntries_none
  intro g hg hgp
  by_cases hgf : g = f
  · rw [hgf]; exact hfail
  · exact absurd (List.inj_on_of_nodup_map hnd hg hf hgp) hgf

/-- Succeeding sample job for the C10 witness. -/
def wit10a : KsyFile :=
  KsyFile.mk "a.ksy" (ParseResult.mapping none) (FileMeta.mk true 0 0)
    (some [RawRecord.pair "A" ["out", "a.py"]])

/-- Malformed-output sample job for the C10 witness: the compiler returned
but printed nothing, so the primary-record unpacking raises. -/
def wit10bad : KsyFile :=
  KsyFile.mk "b.ksy" (ParseResult.mapping none) (FileMeta.mk true 0 0)
    (some [])

/-- Sample world for the C10 witness. -/
def wit10world : World :=
  World.mk [wit10a, wit10bad] false (FileMeta.mk true 0 0) true ["out"]

/-- Witness for C10: the empty-output job is omitted, the manifest is
still written, the process exits 0. -/
theorem malformed_output_isolated_witness :
    ∃ m, processJobs wit10world.outDir [wit10a, wit10bad] [] = Except.ok m ∧
      List.lookup wit10bad.path m = none ∧
      runRebuildWith wit10world false [wit10a, wit10bad] =
        RunResult.mk (Outcome.completed true) (DiskManifest.written m) ∧
      exitCode (runRebuildWith wit10world false [wit10a, wit10bad]).outcome = 0 :=
  malformed_output_isolated wit10world false [wit10a, wit10bad] wit10bad []
    (by decide) (by decide) rfl rfl rfl rfl

/-- When the completion order contains a job `f` whose relative path is
already a key contributed by a succeeding earlier-completing job, the
merge loop of lines 170-191 necessarily ends in the duplicate-key
`ValueError`: either some even earlier step already raised, or the
accumulated manifest at `f`'s step holds `f.path` and line 175 fires.
(The check consults only recorded successes, so this is the exact shape of
a detected collision.) -/
lemma processJobs_error_of_dup (outDir : List String) :
    ∀ (l : List KsyFile) (acc : List (String × ManifestEntry)),
      (∃ l₁ f l₂, l = l₁ ++ f :: l₂ ∧
        (List.lookup f.path (acc ++ successEntries outDir l₁)).isSome = true) →
      ∃ e, processJobs outDir l acc = Except.error e := by
  intro l
  induction l with
  | nil =>
      rintro acc ⟨l₁, f, l₂, hsplit, _⟩
      cases l₁ <;> simp at hsplit
  | cons g rest ih =>
      rintro acc ⟨l₁, f, l₂, hsplit, hdup⟩
      by_cases hg : (List.lookup g.path acc).isSome = true
      · exact ⟨RunError.duplicateKey g.path, processJobs_cons_dup rest hg⟩
      · have hgnone : List.lookup g.path acc = none := by
          cases hlk : List.lookup g.path acc with
          | none => rfl
          | some v => exact absurd (by rw [hlk]; rfl) hg
        cases l₁ with
        | nil =>
            simp only [List.nil_append, List.cons.injEq] at hsplit
            obtain ⟨hgf, _⟩ := hsplit
            have hsome : (List.lookup g.path acc).isSome = true := by
              rw [hgf]
              simpa [successEntries] using hdup
            exact absurd hsome hg
        | cons h t =>
            simp only [List.cons_append, List.cons.injEq] at hsplit
            obtain ⟨hgh, hrest⟩ := hsplit
            subst hgh
            cases hjr : jobResult outDir g with
            | some e₀ =>
                have hdup' : (List.lookup f.path
                    ((acc ++ [(g.path, e₀)]) ++ successEntries outDir t)).isSome
                      = true := by
                  rw [successEntries_cons_some t hjr, List.append_cons] at hdup
                  exact hdup
                obtain ⟨e, he⟩ := ih (acc ++ [(g.path, e₀)]) ⟨t, f, l₂, hrest, hdup'⟩
                have hgoal : processJobs outDir (g :: rest) acc =
                    Except.error e := by
                  rw [processJobs_cons_some rest hgnone hjr]
                  exact he
                exact ⟨e, hgoal⟩
            | none =>
                have hdup' : (List.lookup f.path
                    (acc ++ successEntries outDir t)).isSome = true := by
                  rw [successEntries_cons_none t hjr] at hdup
                  exact hdup
                obtain ⟨e, he⟩ := ih acc ⟨t, f, l₂, hrest, hdup'⟩
                have hgoal : processJobs outDir (g :: rest) acc =
                    Except.error e := by
                  rw [processJobs_cons_none rest hgnone hjr]
                  exact he
                exact ⟨e, hgoal⟩

/-- C2 (amended): on a triggered rebuild, when a job completes whose
relative manifest key was already recorded by an earlier-completing
successful job, the run aborts with an uncaught `ValueError` and no
manifest file is written for the run; with `force` unset the prior
manifest file survives byte-for-byte, but with `force` set the prior
manifest was already deleted at the start of the run (lines 107-109), so
the aborted run ends with no manifest file at all. -/
theorem duplicate_key_abort_manifest_state (w : World) (order : List KsyFile)
    (l₁ : List KsyFile) (f : KsyFile) (l₂ : List KsyFile)
    (hsplit : order = l₁ ++ f :: l₂)
    (hdup : (List.lookup f.path (successEntries w.outDir l₁)).isSome = true)
    (hman : w.manifestExists = true)
    (hcomp : w.compilerAvailable = true)
    (htrig : stalenessDecision w false = Except.ok true) :
    ∃ e, processJobs w.outDir order [] = Except.error e ∧
      runRebuildWith w false order =
        RunResult.mk (Outcome.uncaught e) DiskManifest.prior ∧
      (∀ m, (runRebuildWith w false order).finalManifest ≠
        DiskManifest.written m) ∧
      runRebuildWith w true order =
        RunResult.mk (Outcome.uncaught e) DiskManifest.absent ∧
      (∀ m, (runRebuildWith w true order).finalManifest ≠
        DiskManifest.written m) := by
  obtain ⟨e, herr⟩ := processJobs_error_of_dup w.outDir order []
    ⟨l₁, f, l₂, hsplit, by simpa using hdup⟩
  have h1 : runRebuildWith w false order =
      RunResult.mk (Outcome.uncaught e) DiskManifest.prior := by
    rw [runRebuildWith_of_trigger w false order htrig]
    unfold doRebuild
    simp [hcomp, herr, diskAfterPrep, hman]
  have htrig2 : stalenessDecision w true = Except.ok true := by
    unfold stalenessDecision
    simp
  have h2 : runRebuildWith w true order =
      RunResult.mk (Outcome.uncaught e) DiskManifest.absent := by
    rw [runRebuildWith_of_trigger w true order htrig2]
    unfold doRebuild
    simp [hcomp, herr, diskAfterPrep]
  exact ⟨e, herr, h1, by rw [h1]; intro m; simp, h2, by rw [h2]; intro m; simp⟩

/-- First colliding sample job for the C2 run: succeeds. -/
def wit2a : KsyFile :=
  KsyFile.mk "a.ksy" (ParseResult.mapping none) (FileMeta.mk true 100 50)
    (some [RawRecord.pair "A" ["out", "a.py"]])

/-- Second colliding sample job for the C2 run: same relative path,
also succeeds. -/
def wit2b : KsyFile :=
  KsyFile.mk "a.ksy" (ParseResult.mapping none) (FileMeta.mk true 100 50)
    (some [RawRecord.pair "B" ["out", "b.py"]])

/-- Sample world for the C2 run: manifest present (filesystem mtime 40,
older than the definitions), compiler present. -/
def wit2world : World :=
  World.mk [wit2a, wit2b] true (FileMeta.mk true 40 0) true ["out"]

/-- Counterexample to C2 as stated: with `force` set, the previously
persisted manifest does NOT remain unchanged across the duplicate-key
abort — it was deleted before the jobs ran, and the aborted run ends with
no manifest file on disk. -/
theorem duplicate_key_force_deletes_prior_manifest :
    wit2world.manifestExists = true ∧
    runRebuildWith wit2world true (filesToCompile wit2world) =
      RunResult.mk (Outcome.uncaught (RunError.duplicateKey "a.ksy"))
        DiskManifest.absent ∧
    (runRebuildWith wit2world true (filesToCompile wit2world)).finalManifest ≠
      DiskManifest.prior :=
  ⟨rfl, by decide, by decide⟩

/-- Witness for the amended C2: the first colliding job succeeds, so the
second completion is a detected duplicate; the run aborts, no manifest is
written, the prior manifest survives with `force` unset and is gone with
`force` set. -/
theorem duplicate_key_abort_manifest_state_witness :
    ∃ e, processJobs wit2world.outDir [wit2a, wit2b] [] = Except.error e ∧
      runRebuildWith wit2world false [wit2a, wit2b] =
        RunResult.mk (Outcome.uncaught e) DiskManifest.prior ∧
      (∀ m, (runRebuildWith wit2world false [wit2a, wit2b]).finalManifest ≠
        DiskManifest.written m) ∧
      runRebuildWith wit2world true [wit2a, wit2b] =
        RunResult.mk (Outcome.uncaught e) DiskManifest.absent ∧
      (∀ m, (runRebuildWith wit2world true [wit2a, wit2b]).finalManifest ≠
        DiskManifest.written m) :=
  duplicate_key_abort_manifest_state wit2world [wit2a, wit2b] [wit2a] wit2b []
    rfl (by decide) rfl rfl rfl

/-- C7 (amended): when a rebuild is triggered but the external compiler is
absent, the process exits with status 1; with `force` unset and the
manifest present the manifest file is untouched, but with `force` set it
was already deleted before this check, so no manifest survives. -/
theorem compiler_missing_exit_state (w : World) (force : Bool)
    (order : List KsyFile)
    (hcomp : w.compilerAvailable = false)
    (htrig : stalenessDecision w force = Except.ok true) :
    runRebuildWith w force order =
      RunResult.mk Outcome.compilerMissingExit (diskAfterPrep w force) ∧
    exitCode (runRebuildWith w force order).outcome = 1 ∧
    ((force = false ∧ w.manifestExists = true) →
      diskAfterPrep w force = DiskManifest.prior) ∧
    (force = true → diskAfterPrep w force = DiskManifest.absent) := by
  have h1 : runRebuildWith w force order =
      RunResult.mk Outcome.compilerMissingExit (diskAfterPrep w force) := by
    rw [runRebuildWith_of_trigger w force order htrig]
    unfold doRebuild
    rw [hcomp]
    simp
  refine ⟨h1, by rw [h1]; rfl, ?_, ?_⟩
  · rintro ⟨hff, hme⟩
    unfold diskAfterPrep
    rw [hff, hme]
    simp
  · intro hft
    unfold diskAfterPrep
    rw [hft]
    simp

/-- Sample world for the C7 counterexample: manifest present, compiler
absent. -/
def wit7world : World :=
  World.mk [] true (FileMeta.mk true 40 0) false ["out"]

/-- Counterexample to C7 as stated: with `force` set and the compiler
absent, the process exits 1 but the manifest file HAS been modified — it
was deleted at the start of the run. -/
theorem compiler_missing_force_manifest_deleted :
    wit7world.manifestExists = true ∧
    runRebuildWith wit7world true [] =
      RunResult.mk Outcome.compilerMissingExit DiskManifest.absent ∧
    (runRebuildWith wit7world true []).finalManifest ≠ DiskManifest.prior :=
  ⟨rfl, by decide, by decide⟩

/-- Dirty sample file for the C7 witness: newer than the manifest, so the
staleness comparison triggers the rebuild with `force` unset. -/
def wit7dirty : KsyFile :=
  KsyFile.mk "d.ksy" (ParseResult.mapping none) (FileMeta.mk true 100 50) none

/-- Sample world for the C7 witness: stale manifest, compiler absent. -/
def wit7stale : World :=
  World.mk [wit7dirty] true (FileMeta.mk true 40 0) false ["out"]

/-- Witness for the amended C7: with `force` unset the compiler-missing
exit leaves the prior manifest in place. -/
theorem compiler_missing_exit_state_witness :
    runRebuildWith wit7stale false [wit7dirty] =
      RunResult.mk Outcome.compilerMissingExit (diskAfterPrep wit7stale false) :=
  (compiler_missing_exit_state wit7stale false [wit7dirty] rfl rfl).1

/-- C8 (amended): over jobs with pairwise-distinct relative paths, the
merge never hits the duplicate-key error and the resulting manifest
mapping is independent of completion order; with colliding paths, whether
the duplicate-key error fires can itself depend on completion order. -/
theorem merge_order_insensitive_nodup (outDir : List String)
    (l₁ l₂ : List KsyFile) (hperm : l₁.Perm l₂)
    (hnd : (l₁.map KsyFile.path).Nodup) :
    ∃ m₁ m₂, processJobs outDir l₁ [] = Except.ok m₁ ∧
      processJobs outDir l₂ [] = Except.ok m₂ ∧
      ∀ p, List.lookup p m₁ = List.lookup p m₂ := by
  have hnd₂ : (l₂.map KsyFile.path).Nodup :=
    ((hperm.map KsyFile.path).nodup_iff).mp hnd
  have h₁ := processJobs_ok outDir l₁ [] hnd (fun g _ => rfl)
  have h₂ := processJobs_ok outDir l₂ [] hnd₂ (fun g _ => rfl)
  refine ⟨successEntries outDir l₁, successEntries outDir l₂,
    by simpa using h₁, by simpa using h₂, ?_⟩
  intro p
  have hpe : (successEntries outDir l₁).Perm (successEntries outDir l₂) :=
    hperm.filterMap _
  exact lookup_perm_of_nodup_keys p hpe (successEntries_keys_nodup outDir l₁ hnd)

/-- Failing sample job for the C8 counterexample. -/
def wit8fail : KsyFile :=
  KsyFile.mk "a.ksy" (ParseResult.mapping none) (FileMeta.mk true 0 0) none

/-- Succeeding sample job for the C8 counterexample, same relative path. -/
def wit8succ : KsyFile :=
  KsyFile.mk "a.ksy" (ParseResult.mapping none) (FileMeta.mk true 0 0)
    (some [RawRecord.pair "A" ["out", "a.py"]])

/-- Counterexample to C8 as stated: the same two colliding per-job
outcomes are fatal in one completion order but not in the other — when
the failing job completes first its path is never recorded, so the later
success is accepted silently; in the reverse order the duplicate check
fires. -/
theorem merge_fatal_depends_on_order :
    List.Perm [wit8fail, wit8succ] [wit8succ, wit8fail] ∧
    processJobs ["out"] [wit8fail, wit8succ] [] =
      Except.ok [("a.ksy", ManifestEntry.mk "A" ["a.py"] [])] ∧
    processJobs ["out"] [wit8succ, wit8fail] [] =
      Except.error (RunError.duplicateKey "a.ksy") :=
  ⟨List.Perm.swap wit8succ wit8fail [], rfl, rfl⟩

/-- Succeeding sample job on path a for the C8 witness. -/
def wit8a : KsyFile :=
  KsyFile.mk "a.ksy" (ParseResult.mapping none) (FileMeta.mk true 0 0)
    (some [RawRecord.pair "A" ["out", "a.py"]])

/-- Failing sample job on path b for the C8 witness. -/
def wit8b : KsyFile :=
  KsyFile.mk "b.ksy" (ParseResult.mapping none) (FileMeta.mk true 0 0) none

/-- Witness for the amended C8: with distinct paths, both completion
orders produce manifests agreeing on every key. -/
theorem merge_order_insensitive_nodup_witness :
    ∃ m₁ m₂, processJobs ["out"] [wit8a, wit8b] [] = Except.ok m₁ ∧
      processJobs ["out"] [wit8b, wit8a] [] = Except.ok m₂ ∧
      ∀ p, List.lookup p m₁ = List.lookup p m₂ :=
  merge_order_insensitive_nodup ["out"] [wit8a, wit8b] [wit8b, wit8a]
    (List.Perm.swap wit8b wit8a []) (by decide)

/-- C6 (amended): the process exits with status 0 exactly when the run
either decides no rebuild is needed, or rebuilds with the compiler
available and without a duplicate-key abort.  Every other completion —
the compiler-missing `sys.exit(1)`, the duplicate-key `ValueError`, the
empty-set `TypeError` — exits with status 1. -/
theorem exit_code_zero_iff (w : World) (force : Bool) (order : List KsyFile) :
    exitCode (runRebuildWith w force order).outcome = 0 ↔
      (stalenessDecision w force = Except.ok false ∨
        (stalenessDecision w force = Except.ok true ∧
          w.compilerAvailable = true ∧
          ∃ m, processJobs w.outDir order [] = Except.ok m)) := by
  cases hs : stalenessDecision w force with
  | error e =>
      obtain ⟨he, hrun⟩ := runRebuildWith_of_error w force order e hs
      rw [hrun]
      simp [exitCode]
  | ok b =>
      cases b with
      | false =>
          rw [runRebuildWith_of_fresh w force order hs]
          simp [exitCode]
      | true =>
          rw [runRebuildWith_of_trigger w force order hs]
          unfold doRebuild
          cases hc : w.compilerAvailable with
          | false => simp [exitCode]
          | true =>
              simp only [if_true]
              cases hp : processJobs w.outDir order [] with
              | error e => simp [exitCode]
              | ok m => simp [exitCode]

/-- First colliding sample job for the C6 counterexample. -/
def wit6a : KsyFile :=
  KsyFile.mk "a.ksy" (ParseResult.mapping none) (FileMeta.mk true 0 0)
    (some [RawRecord.pair "A" ["out", "a.py"]])

/-- Second colliding sample job for the C6 counterexample. -/
def wit6b : KsyFile :=
  KsyFile.mk "a.ksy" (ParseResult.mapping none) (FileMeta.mk true 0 0)
    (some [RawRecord.pair "B" ["out", "b.py"]])

/-- Sample world for the C6 counterexample: compiler present, two
definitions colliding on one relative key. -/
def wit6world : World :=
  World.mk [wit6a, wit6b] true (FileMeta.mk true 40 0) true ["out"]

/-- Counterexample to C6 as stated: a run aborted by a duplicate manifest
key exits with status 1 (uncaught `ValueError` traceback), not 0. -/
theorem duplicate_abort_exits_nonzero :
    (runRebuildWith wit6world true (filesToCompile wit6world)).outcome =
      Outcome.uncaught (RunError.duplicateKey "a.ksy") ∧
    exitCode (runRebuildWith wit6world true (filesToCompile wit6world)).outcome
      = 1 :=
  ⟨by decide, by decide⟩
